import Mathlib

set_option maxRecDepth 100000

/-!
Verification of the luxpower_485 Modbus-RTU transaction engine.

The Python sources (dump_ongoing.py, modbus_dump_holding.py,
modbus_dump_input.py, modbus_read_one.py) are shallowly embedded here:
byte strings become `List Nat` (every element a byte value 0..255),
Python integers become `Nat` with the explicit bit operations of the
source (`&&&`, `|||`, `^^^`, `>>>`, `<<<`), functions that return
`None` on error become sum-typed results, and an uncaught Python
`IndexError` is modelled by a dedicated `crash` result constructor.
-/

namespace Lux485

/-! ## Checksum: crc16_modbus

Source (identical in all four scripts, e.g. dump_ongoing.py lines 74-80):

    def crc16_modbus(data: bytes) -> int:
        crc = 0xFFFF
        for b in data:
            crc ^= b
            for _ in range(8):
                crc = (crc >> 1) ^ 0xA001 if (crc & 1) else (crc >> 1)
        return crc & 0xFFFF
-/

/-- One inner-loop step of the source CRC: shift right, conditionally XOR
the generator polynomial, exactly as written in the Python. -/
def crcBitStep (crc : Nat) : Nat :=
  if crc &&& 1 ≠ 0 then (crc >>> 1) ^^^ 0xA001 else crc >>> 1

/-- `for _ in range(n)` applications of `crcBitStep`. -/
def crcBits : Nat → Nat → Nat
  | 0, c => c
  | n + 1, c => crcBits n (crcBitStep c)

/-- Body of the outer `for b in data` loop: `crc ^= b` then 8 bit steps. -/
def crcByteStep (crc b : Nat) : Nat :=
  crcBits 8 (crc ^^^ b)

/-- The source CRC function: fold over the bytes from 0xFFFF, final mask. -/
def crc16_modbus (data : List Nat) : Nat :=
  (data.foldl crcByteStep 0xFFFF) &&& 0xFFFF

/-- Modelled from the words of claim C1 (the spec's description of the
checksum), to be compared with the source `crc16_modbus`: the bit
shifted out is `crc % 2`, the shift is division by two, and each input
byte is XORed into the low byte of the accumulator. -/
def crcClaimBitStep (crc : Nat) : Nat :=
  if crc % 2 = 1 then (crc / 2) ^^^ 0xA001 else crc / 2

/-- Spec-side iteration of `crcClaimBitStep`. -/
def crcClaimBits : Nat → Nat → Nat
  | 0, c => c
  | n + 1, c => crcClaimBits n (crcClaimBitStep c)

/-- Spec-side checksum: accumulator starts all-ones; each byte is XORed
into the low byte of the accumulator, then 8 conditional shift steps. -/
def crc16_claim (data : List Nat) : Nat :=
  data.foldl (fun crc b => crcClaimBits 8 (256 * (crc / 256) + ((crc % 256) ^^^ b))) 0xFFFF

/-! ### Bit-arithmetic helpers -/

theorem and_255_eq_mod (x : Nat) : x &&& 0xFF = x % 256 := by
  have h := Nat.and_pow_two_sub_one_eq_mod x 8
  norm_num at h
  exact h

theorem and_65535_eq_mod (x : Nat) : x &&& 0xFFFF = x % 65536 := by
  have h := Nat.and_pow_two_sub_one_eq_mod x 16
  norm_num at h
  exact h

theorem hi_byte_eq (x : Nat) (h : x < 65536) : (x >>> 8) &&& 0xFF = x / 256 := by
  have e : (2 : Nat) ^ 8 = 256 := by norm_num
  rw [Nat.shiftRight_eq_div_pow, and_255_eq_mod, e]
  exact Nat.mod_eq_of_lt (Nat.div_lt_of_lt_mul (by omega))

theorem xor_mod_two_pow (a b k : Nat) :
    (a ^^^ b) % 2 ^ k = (a % 2 ^ k) ^^^ (b % 2 ^ k) := by
  apply Nat.eq_of_testBit_eq
  intro i
  simp only [Nat.testBit_mod_two_pow, Nat.testBit_xor]
  by_cases h : i < k <;> simp [h]

theorem xor_div_two_pow (a b k : Nat) :
    (a ^^^ b) / 2 ^ k = (a / 2 ^ k) ^^^ (b / 2 ^ k) := by
  have e : ∀ x : Nat, x / 2 ^ k = x >>> k := fun x => (Nat.shiftRight_eq_div_pow x k).symm
  rw [e, e, e]
  apply Nat.eq_of_testBit_eq
  intro i
  simp [Nat.testBit_shiftRight, Nat.testBit_xor]

/-- XOR with a byte only touches the low byte of the accumulator. -/
theorem xor_byte_split (x b : Nat) (hb : b < 256) :
    x ^^^ b = 256 * (x / 256) + ((x % 256) ^^^ b) := by
  have e : (256 : Nat) = 2 ^ 8 := by norm_num
  conv_lhs => rw [← Nat.div_add_mod (x ^^^ b) 256]
  rw [e, xor_div_two_pow, xor_mod_two_pow]
  rw [Nat.div_eq_of_lt (show b < 2 ^ 8 by omega), Nat.mod_eq_of_lt (show b < 2 ^ 8 by omega),
    Nat.xor_zero]

theorem crcBitStep_eq_claim (c : Nat) : crcBitStep c = crcClaimBitStep c := by
  unfold crcBitStep crcClaimBitStep
  rw [Nat.and_one_is_mod, Nat.shiftRight_eq_div_pow, pow_one]
  rcases Nat.mod_two_eq_zero_or_one c with h | h <;> simp [h]

theorem crcBits_eq_claim (n c : Nat) : crcBits n c = crcClaimBits n c := by
  induction n generalizing c with
  | zero => rfl
  | succ n ih => rw [crcBits, crcClaimBits, crcBitStep_eq_claim, ih]

theorem crcBitStep_lt {c : Nat} (h : c < 65536) : crcBitStep c < 65536 := by
  have h1 : c >>> 1 < 65536 := by
    rw [Nat.shiftRight_eq_div_pow]
    exact lt_of_le_of_lt (Nat.div_le_self c (2 ^ 1)) h
  unfold crcBitStep
  split
  · have e : (65536 : Nat) = 2 ^ 16 := by norm_num
    rw [e] at h1 ⊢
    exact Nat.xor_lt_two_pow h1 (by norm_num)
  · exact h1

theorem crcBits_lt {c : Nat} (n : Nat) (h : c < 65536) : crcBits n c < 65536 := by
  induction n generalizing c with
  | zero => exact h
  | succ n ih => exact ih (crcBitStep_lt h)

theorem crcByteStep_lt {c b : Nat} (hc : c < 65536) (hb : b < 256) :
    crcByteStep c b < 65536 := by
  unfold crcByteStep
  apply crcBits_lt
  have e : (65536 : Nat) = 2 ^ 16 := by norm_num
  rw [e]
  exact Nat.xor_lt_two_pow (by omega) (by omega)

theorem crc_foldl_lt (data : List Nat) (h : ∀ b ∈ data, b < 256) {c : Nat}
    (hc : c < 65536) : data.foldl crcByteStep c < 65536 := by
  induction data generalizing c with
  | nil => exact hc
  | cons x xs ih =>
    exact ih (fun b hb => h b (List.mem_cons_of_mem x hb))
      (crcByteStep_lt hc (h x (List.mem_cons_self x xs)))

/-- The CRC result is always a 16-bit value (final mask in the source). -/
theorem crc16_modbus_lt (data : List Nat) : crc16_modbus data < 65536 := by
  unfold crc16_modbus
  rw [and_65535_eq_mod]
  exact Nat.mod_lt _ (by norm_num)

theorem crc_foldl_eq_claim (data : List Nat) (h : ∀ b ∈ data, b < 256) {c : Nat} :
    data.foldl crcByteStep c =
      data.foldl (fun crc b => crcClaimBits 8 (256 * (crc / 256) + ((crc % 256) ^^^ b))) c := by
  induction data generalizing c with
  | nil => rfl
  | cons x xs ih =>
    rw [List.foldl_cons, List.foldl_cons]
    rw [show crcByteStep c x = crcClaimBits 8 (256 * (c / 256) + ((c % 256) ^^^ x)) by
      unfold crcByteStep
      rw [crcBits_eq_claim, xor_byte_split c x (h x (List.mem_cons_self x xs))]]
    exact ih (fun b hb => h b (List.mem_cons_of_mem x hb))

/-- Claim C1: crc16_modbus computes the standard CRC-16/MODBUS value.  The
16-bit accumulator starts at 0xFFFF; each input byte is XORed into the low
byte of the accumulator; then 8 steps each shift the accumulator right by
one bit and XOR in the generator polynomial 0xA001 exactly when the bit
shifted out was 1 (that algorithm is `crc16_claim`).  The function is a pure
function of its input (deterministic, no state between calls) and always
returns a value in 0..0xFFFF. -/
theorem claim1_crc16_modbus (data : List Nat) (h : ∀ b ∈ data, b < 256) :
    crc16_modbus data = crc16_claim data ∧ crc16_modbus data < 65536 := by
  constructor
  · unfold crc16_modbus crc16_claim
    rw [crc_foldl_eq_claim data h, ← crc_foldl_eq_claim data h, and_65535_eq_mod,
      Nat.mod_eq_of_lt (crc_foldl_lt data h (by norm_num))]
  · exact crc16_modbus_lt data

theorem claim1_crc16_modbus_witness :
    crc16_modbus [0x01, 0x04] = crc16_claim [0x01, 0x04] ∧
      crc16_modbus [0x01, 0x04] < 65536 :=
  claim1_crc16_modbus [0x01, 0x04] (by decide)

/-! ## Request builders

dump_ongoing.py lines 83-94:

    def build_req(slave: int, start: int, qty: int) -> bytes:
        p = bytes([slave, 0x04, (start >> 8) & 0xFF, start & 0xFF,
                   (qty >> 8) & 0xFF, qty & 0xFF])
        c = crc16_modbus(p)
        return p + bytes([c & 0xFF, (c >> 8) & 0xFF])

modbus_dump_holding.py lines 31-42 (build_read_holding_req) is identical
except the function code is 0x03 and the slave byte is masked with 0xFF.
-/

/-- The 6-byte request body of dump_ongoing's `build_req` (local `p`). -/
def reqBody (slave start qty : Nat) : List Nat :=
  [slave, 0x04, (start >>> 8) &&& 0xFF, start &&& 0xFF, (qty >>> 8) &&& 0xFF, qty &&& 0xFF]

def build_req (slave start qty : Nat) : List Nat :=
  reqBody slave start qty ++
    [crc16_modbus (reqBody slave start qty) &&& 0xFF,
     (crc16_modbus (reqBody slave start qty) >>> 8) &&& 0xFF]

/-- The 6-byte request body of `build_read_holding_req` (local `pdu`). -/
def holdingReqBody (slave start qty : Nat) : List Nat :=
  [slave &&& 0xFF, 0x03, (start >>> 8) &&& 0xFF, start &&& 0xFF, (qty >>> 8) &&& 0xFF,
    qty &&& 0xFF]

def build_read_holding_req (slave start qty : Nat) : List Nat :=
  holdingReqBody slave start qty ++
    [crc16_modbus (holdingReqBody slave start qty) &&& 0xFF,
     (crc16_modbus (holdingReqBody slave start qty) >>> 8) &&& 0xFF]

/-- Claim C2: for every responder address in 0..255, operation (holding or
input) and 16-bit start and count, the built request is exactly 8 bytes:
address byte, function-code byte (0x04 for input in `build_req`, 0x03 for
holding in `build_read_holding_req`), start high then low byte, count high
then low byte, and the 16-bit checksum of the first 6 bytes low byte first. -/
theorem claim2_build_req (slave start qty : Nat) (hs : slave < 256)
    (h1 : start < 65536) (h2 : qty < 65536) :
    (build_req slave start qty).length = 8 ∧
    (build_read_holding_req slave start qty).length = 8 ∧
    build_req slave start qty =
      [slave, 0x04, start / 256, start % 256, qty / 256, qty % 256] ++
        [crc16_modbus [slave, 0x04, start / 256, start % 256, qty / 256, qty % 256] % 256,
         crc16_modbus [slave, 0x04, start / 256, start % 256, qty / 256, qty % 256] / 256] ∧
    build_read_holding_req slave start qty =
      [slave, 0x03, start / 256, start % 256, qty / 256, qty % 256] ++
        [crc16_modbus [slave, 0x03, start / 256, start % 256, qty / 256, qty % 256] % 256,
         crc16_modbus [slave, 0x03, start / 256, start % 256, qty / 256, qty % 256] / 256] := by
  have hmask : slave &&& 0xFF = slave := by
    rw [and_255_eq_mod]
    exact Nat.mod_eq_of_lt hs
  have hb1 : (start >>> 8) &&& 0xFF = start / 256 := hi_byte_eq start h1
  have hb2 : start &&& 0xFF = start % 256 := and_255_eq_mod start
  have hb3 : (qty >>> 8) &&& 0xFF = qty / 256 := hi_byte_eq qty h2
  have hb4 : qty &&& 0xFF = qty % 256 := and_255_eq_mod qty
  refine ⟨rfl, rfl, ?_, ?_⟩
  · unfold build_req reqBody
    rw [hb1, hb2, hb3, hb4, and_255_eq_mod, hi_byte_eq _ (crc16_modbus_lt _)]
  · unfold build_read_holding_req holdingReqBody
    rw [hmask, hb1, hb2, hb3, hb4, and_255_eq_mod, hi_byte_eq _ (crc16_modbus_lt _)]

theorem claim2_build_req_witness :
    (build_req 1 258 2).length = 8 ∧
    (build_read_holding_req 1 258 2).length = 8 ∧
    build_req 1 258 2 =
      [1, 0x04, 258 / 256, 258 % 256, 2 / 256, 2 % 256] ++
        [crc16_modbus [1, 0x04, 258 / 256, 258 % 256, 2 / 256, 2 % 256] % 256,
         crc16_modbus [1, 0x04, 258 / 256, 258 % 256, 2 / 256, 2 % 256] / 256] ∧
    build_read_holding_req 1 258 2 =
      [1, 0x03, 258 / 256, 258 % 256, 2 / 256, 2 % 256] ++
        [crc16_modbus [1, 0x03, 258 / 256, 258 % 256, 2 / 256, 2 % 256] % 256,
         crc16_modbus [1, 0x03, 258 / 256, 258 % 256, 2 / 256, 2 % 256] / 256] :=
  claim2_build_req 1 258 2 (by norm_num) (by norm_num) (by norm_num)

/-! ## Register decoding

All four scripts decode the data region with the same loop, e.g.
modbus_dump_input.py line 89:

    regs = [(data[i] << 8) | data[i+1] for i in range(0, len(data), 2)]

Python raises an uncaught IndexError at `data[i+1]` when `len(data)` is
odd; that is modelled by the `none` result. -/

/-- Pairwise big-endian decode of the data region; `none` models the
IndexError raised at `data[i+1]` when the region has odd length. -/
def decodeRegs : List Nat → Option (List Nat)
  | [] => some []
  | [_] => none
  | b0 :: b1 :: rest => (decodeRegs rest).map fun l => ((b0 <<< 8) ||| b1) :: l

/-- Same decode, keyed by consecutive register addresses from `start`, as
in dump_ongoing.py lines 135-139 (`result[start + i//2] = ...`). -/
def decodePairs (start : Nat) : List Nat → Option (List (Nat × Nat))
  | [] => some []
  | [_] => none
  | b0 :: b1 :: rest =>
    (decodePairs (start + 1) rest).map fun l => (start, (b0 <<< 8) ||| b1) :: l

/-- Result of a Python function that returns a value or `None`, with a
separate constructor for an uncaught IndexError. -/
inductive PyResult (α : Type) where
  | ok : α → PyResult α
  | err : PyResult α
  | crash : PyResult α
deriving DecidableEq, Repr

/-! ## dump_ongoing.py: read_registers (lines 108-141)

The serial stream is modelled as the list of bytes the device makes
available; `read_exact ser n` is `take n` of the not-yet-consumed bytes
and is short exactly when fewer bytes are available.  The parameters
`slave` and `qty` are part of the source signature but are never
consulted while parsing the response (the source only uses them to build
the request), which is why they do not occur in the body. -/

def read_registers (stream : List Nat) (slave start qty : Nat) :
    PyResult (List (Nat × Nat)) :=
  if stream.length < 3 then .err
  else
    if (stream.getD 1 0) &&& 0x80 ≠ 0 then .err
    else
      let bc := stream.getD 2 0
      if ((stream.drop 3).take (bc + 2)).length ≠ bc + 2 then .err
      else
        let frame := stream.take 3 ++ (stream.drop 3).take (bc + 2)
        if crc16_modbus (frame.take (frame.length - 2)) ≠
            (frame.getD (frame.length - 2) 0 ||| ((frame.getD (frame.length - 1) 0) <<< 8))
        then .err
        else
          match decodePairs start ((frame.drop 3).take (frame.length - 5)) with
          | some r => .ok r
          | none => .crash

/-! ## modbus_dump_input.py: read_block (lines 56-90) -/

inductive BlockResult where
  /-- ("TIMEOUT_OR_SHORT", ...) -/
  | timeoutOrShort : BlockResult
  /-- ("EXCEPTION", "short exception frame", None) -/
  | exceptionShort : BlockResult
  /-- ("EXCEPTION", f"func=... code=... crc_ok={ok}", None) -/
  | exception : Bool → BlockResult
  /-- ("CRC", "crc mismatch", None) -/
  | crcMismatch : BlockResult
  /-- ("OK", None, regs) -/
  | okRegs : List Nat → BlockResult
  /-- uncaught IndexError in the decode loop -/
  | crash : BlockResult
deriving DecidableEq, Repr

def read_block (stream : List Nat) (slave start qty : Nat) : BlockResult :=
  if stream.length < 3 then .timeoutOrShort
  else
    if (stream.getD 1 0) &&& 0x80 ≠ 0 then
      if ((stream.drop 3).take 2).length ≠ 2 then .exceptionShort
      else
        .exception (crc16_modbus (stream.take 3) ==
          ((stream.drop 3).getD 0 0 ||| (((stream.drop 3).getD 1 0) <<< 8)))
    else
      let bc := stream.getD 2 0
      if ((stream.drop 3).take (bc + 2)).length ≠ bc + 2 then .timeoutOrShort
      else
        let frame := stream.take 3 ++ (stream.drop 3).take (bc + 2)
        if crc16_modbus (frame.take (frame.length - 2)) ≠
            (frame.getD (frame.length - 2) 0 ||| ((frame.getD (frame.length - 1) 0) <<< 8))
        then .crcMismatch
        else
          match decodeRegs ((frame.drop 3).take (frame.length - 5)) with
          | some regs => .okRegs regs
          | none => .crash

/-! ## modbus_dump_holding.py: read_holding_chunk (lines 55-119) -/

inductive HoldResult where
  /-- ("TIMEOUT_OR_SHORT", ...) -/
  | timeoutOrShort : HoldResult
  /-- ("DESYNC", f"unexpected slave ...", ...) -/
  | desync : HoldResult
  /-- ("EXC_SHORT", ...) -/
  | excShort : HoldResult
  /-- ("EXC_BADCRC", ...) -/
  | excBadCrc : HoldResult
  /-- ("EXCEPTION", ...) -/
  | exception : HoldResult
  /-- ("SHORT", "missing bytecount", ...) -/
  | shortCount : HoldResult
  /-- ("SHORT", frame, None) -/
  | shortData : HoldResult
  /-- ("BADCRC", ...) -/
  | badCrc : HoldResult
  /-- ("BADCNT", f"bytecount={bcnt} expected={qty*2}", ...) -/
  | badCnt : HoldResult
  /-- (regs, None): success -/
  | okRegs : List Nat → HoldResult
  /-- uncaught IndexError in the decode loop -/
  | crash : HoldResult
deriving DecidableEq, Repr

def read_holding_chunk (stream : List Nat) (slave start qty : Nat) : HoldResult :=
  if stream.length < 2 then .timeoutOrShort
  else
    if stream.getD 0 0 ≠ slave &&& 0xFF then .desync
    else if (stream.getD 1 0) &&& 0x80 ≠ 0 then
      if ((stream.drop 2).take 3).length < 3 then .excShort
      else
        let frame := stream.take 2 ++ (stream.drop 2).take 3
        if (stream.drop 2).getD 1 0 ||| (((stream.drop 2).getD 2 0) <<< 8) ≠
            crc16_modbus (frame.take (frame.length - 2))
        then .excBadCrc
        else .exception
    else
      if ((stream.drop 2).take 1).length < 1 then .shortCount
      else
        let bc := stream.getD 2 0
        let rest := (stream.drop 3).take (bc + 2)
        let frame := stream.take 3 ++ rest
        if rest.length < bc + 2 then .shortData
        else
          if rest.getD (rest.length - 2) 0 ||| ((rest.getD (rest.length - 1) 0) <<< 8) ≠
              crc16_modbus (frame.take (frame.length - 2))
          then .badCrc
          else if bc ≠ qty * 2 then .badCnt
          else
            match decodeRegs (rest.take (rest.length - 2)) with
            | some regs => .okRegs regs
            | none => .crash

/-! ## modbus_read_one.py: response handling of one attempt (lines 75-116) -/

inductive OneResult where
  /-- "NO RESPONSE (header)" -/
  | noHeader : OneResult
  /-- "SHORT EXCEPTION: ..." -/
  | shortException : OneResult
  /-- "EXCEPTION slave=... crc_ok={b}" -/
  | exception : Bool → OneResult
  /-- "SHORT RESPONSE: ..." -/
  | shortResponse : OneResult
  /-- "OK crc_ok={b} ..." followed by the decoded register values -/
  | okPrint : Bool → List Nat → OneResult
  /-- uncaught IndexError in the decode loop -/
  | crash : OneResult
deriving DecidableEq, Repr

def read_one (stream : List Nat) : OneResult :=
  if stream.length < 3 then .noHeader
  else
    if (stream.getD 1 0) &&& 0x80 ≠ 0 then
      if ((stream.drop 3).take 2).length < 2 then .shortException
      else
        let resp := stream.take 3 ++ (stream.drop 3).take 2
        .exception (crc16_modbus (resp.take (resp.length - 2)) ==
          (resp.getD (resp.length - 2) 0 ||| ((resp.getD (resp.length - 1) 0) <<< 8)))
    else
      let bc := stream.getD 2 0
      if ((stream.drop 3).take (bc + 2)).length < bc + 2 then .shortResponse
      else
        let resp := stream.take 3 ++ (stream.drop 3).take (bc + 2)
        let crcOk := crc16_modbus (resp.take (resp.length - 2)) ==
          (resp.getD (resp.length - 2) 0 ||| ((resp.getD (resp.length - 1) 0) <<< 8))
        match decodeRegs ((resp.drop 3).take bc) with
        | some regs => .okPrint crcOk regs
        | none => .crash

/-! ## Claim C9: address-mismatch handling -/

/-- Claim C9 counterexample: the claim says every response whose header
address byte differs from the requested responder address yields a distinct
AddressMismatch error and never a successful result; but dump_ongoing's
`read_registers`, asked to read from slave 1, accepts a well-formed frame
whose header address byte is 2 and returns its values as a success. -/
theorem claim9_counterexample :
    read_registers [2, 4, 2, 0, 7, 188, 242] 1 0 1 = .ok [(0, 7)] ∧ (2 : Nat) ≠ 1 := by
  constructor
  · decide
  · decide

/-- Claim C9 (amended): only modbus_dump_holding's `read_holding_chunk`
checks the responder address: if the first received byte differs from the
requested slave (masked to a byte) it returns the distinct DESYNC error and
never a successful result.  `read_registers`, `read_block` and `read_one`
never consult the address byte (see the counterexample). -/
theorem claim9_desync (stream : List Nat) (slave start qty : Nat)
    (hlen : 2 ≤ stream.length) (hm : stream.getD 0 0 ≠ slave &&& 0xFF) :
    read_holding_chunk stream slave start qty = .desync ∧
      ∀ regs, read_holding_chunk stream slave start qty ≠ .okRegs regs := by
  have h : read_holding_chunk stream slave start qty = .desync := by
    unfold read_holding_chunk
    rw [if_neg (by omega), if_pos hm]
  exact ⟨h, fun regs hc => by rw [h] at hc; exact HoldResult.noConfusion hc⟩

theorem claim9_desync_witness :
    read_holding_chunk [2, 4, 2, 0, 7, 188, 242] 1 0 1 = .desync ∧
      ∀ regs, read_holding_chunk [2, 4, 2, 0, 7, 188, 242] 1 0 1 ≠ .okRegs regs :=
  claim9_desync [2, 4, 2, 0, 7, 188, 242] 1 0 1 (by decide) (by decide)

/-! ## Claim C10: bounds of the register-decoding step -/

theorem decodeRegs_even_isSome :
    ∀ data : List Nat, 2 ∣ data.length → (decodeRegs data).isSome
  | [], _ => rfl
  | [_], h => by simp at h
  | _ :: _ :: rest, h => by
    have hr : 2 ∣ rest.length := by
      simp only [List.length_cons] at h
      omega
    unfold decodeRegs
    rcases Option.isSome_iff_exists.mp (decodeRegs_even_isSome rest hr) with ⟨l, hl⟩
    rw [hl]
    rfl

theorem decodePairs_even_isSome :
    ∀ (start : Nat) (data : List Nat), 2 ∣ data.length → (decodePairs start data).isSome
  | _, [], _ => rfl
  | _, [_], h => by simp at h
  | start, _ :: _ :: rest, h => by
    have hr : 2 ∣ rest.length := by
      simp only [List.length_cons] at h
      omega
    unfold decodePairs
    rcases Option.isSome_iff_exists.mp (decodePairs_even_isSome (start + 1) rest hr) with ⟨l, hl⟩
    rw [hl]
    rfl

theorem decodeRegs_length :
    ∀ {data : List Nat} {regs : List Nat}, decodeRegs data = some regs →
      data.length = 2 * regs.length
  | [], regs, h => by
    simp only [decodeRegs, Option.some.injEq] at h
    subst h
    rfl
  | [_], _, h => by simp [decodeRegs] at h
  | _ :: _ :: rest, regs, h => by
    simp only [decodeRegs, Option.map_eq_some'] at h
    rcases h with ⟨l, hl, rfl⟩
    have := decodeRegs_length hl
    simp only [List.length_cons, this]
    omega

/-- Claim C10 counterexample: the claim asserts the decode accesses only
in-bounds indices even when the byte-count byte is odd; but on a complete
frame with byte-count 1 and a valid checksum, `read_block` reaches the
decode and raises IndexError (the comprehension reads `data[1]` of a
1-byte data region), modelled by `.crash`; `decodeRegs` on the 1-byte
region is `none`. -/
theorem claim10_counterexample :
    read_block [1, 4, 1, 9, 129, 143] 1 0 1 = .crash ∧ decodeRegs [9] = none := by
  constructor
  · decide
  · decide

/-- Claim C10 (amended): the decode accesses only in-bounds indices when
the data region has even length: `read_block` cannot raise (crash) when
the byte-count byte is even, and on an even-length region both decoders
succeed, producing one value per byte pair.  For an odd byte-count the
final pair access reads one byte past the end of the collected data (see
the counterexample). -/
theorem claim10_even_decode (stream data : List Nat) (slave start qty : Nat)
    (hbc : 2 ∣ stream.getD 2 0) (hd : 2 ∣ data.length) :
    read_block stream slave start qty ≠ .crash ∧
      (decodeRegs data).isSome ∧ (decodePairs start data).isSome := by
  refine ⟨?_, decodeRegs_even_isSome data hd, decodePairs_even_isSome start data hd⟩
  simp only [read_block]
  split
  · exact fun h => BlockResult.noConfusion h
  split
  · split
    · exact fun h => BlockResult.noConfusion h
    · exact fun h => BlockResult.noConfusion h
  split
  · exact fun h => BlockResult.noConfusion h
  split
  · exact fun h => BlockResult.noConfusion h
  · rename_i h1 h2 h3 h4
    have hr : (List.take (stream.getD 2 0 + 2) (List.drop 3 stream)).length =
        stream.getD 2 0 + 2 := not_ne_iff.mp h3
    have ht3 : (List.take 3 stream).length = 3 := by
      simp only [List.length_take]
      simp only [List.length_take] at hr
      omega
    have hdrop : List.drop 3
        (List.take 3 stream ++ List.take (stream.getD 2 0 + 2) (List.drop 3 stream)) =
        List.take (stream.getD 2 0 + 2) (List.drop 3 stream) := List.drop_left' ht3
    have hflen :
        (List.take 3 stream ++ List.take (stream.getD 2 0 + 2) (List.drop 3 stream)).length =
        stream.getD 2 0 + 5 := by
      rw [List.length_append, ht3, hr]
      omega
    have hdata : (List.take
        ((List.take 3 stream ++ List.take (stream.getD 2 0 + 2) (List.drop 3 stream)).length - 5)
        (List.drop 3
          (List.take 3 stream ++ List.take (stream.getD 2 0 + 2) (List.drop 3 stream)))).length =
        stream.getD 2 0 := by
      rw [hdrop, hflen, List.length_take, hr]
      omega
    rcases Option.isSome_iff_exists.mp (decodeRegs_even_isSome _ (by rw [hdata]; exact hbc))
      with ⟨l, hl⟩
    rw [hl]
    exact fun h => BlockResult.noConfusion h

theorem claim10_even_decode_witness :
    read_block [1, 4, 2, 0, 7, 248, 242] 1 0 1 ≠ .crash ∧
      (decodeRegs [0, 7]).isSome ∧ (decodePairs 0 [0, 7]).isSome :=
  claim10_even_decode [1, 4, 2, 0, 7, 248, 242] [0, 7] 1 0 1 (by decide) (by decide)

/-! ## Claims C3 and C4: checksum and byte-count validation -/

/-- The checksum condition tested by `read_registers` and `read_block`:
the CRC recomputed over all frame bytes but the trailing two equals the
embedded trailing checksum, low byte first. -/
def frame3CrcOk (stream : List Nat) : Prop :=
  crc16_modbus ((stream.take 3 ++ (stream.drop 3).take (stream.getD 2 0 + 2)).take
      ((stream.take 3 ++ (stream.drop 3).take (stream.getD 2 0 + 2)).length - 2)) =
    ((stream.take 3 ++ (stream.drop 3).take (stream.getD 2 0 + 2)).getD
        ((stream.take 3 ++ (stream.drop 3).take (stream.getD 2 0 + 2)).length - 2) 0 |||
      (((stream.take 3 ++ (stream.drop 3).take (stream.getD 2 0 + 2)).getD
        ((stream.take 3 ++ (stream.drop 3).take (stream.getD 2 0 + 2)).length - 1) 0) <<< 8))

/-- The checksum condition tested by `read_holding_chunk` on a normal
response (embedded trailing checksum, low byte first, against the CRC of
the frame without its trailing two bytes). -/
def holdChunkCrcOk (stream : List Nat) : Prop :=
  ((stream.drop 3).take (stream.getD 2 0 + 2)).getD
      (((stream.drop 3).take (stream.getD 2 0 + 2)).length - 2) 0 |||
    ((((stream.drop 3).take (stream.getD 2 0 + 2)).getD
      (((stream.drop 3).take (stream.getD 2 0 + 2)).length - 1) 0) <<< 8) =
  crc16_modbus ((stream.take 3 ++ (stream.drop 3).take (stream.getD 2 0 + 2)).take
      ((stream.take 3 ++ (stream.drop 3).take (stream.getD 2 0 + 2)).length - 2))

/-- Claim C3 counterexample: the claim says a response whose embedded
checksum does not match the recomputed one never yields a successful
result carrying values; but modbus_read_one decodes the frame
[1, 4, 2, 0, 5, 0, 0] (whose correct CRC is 13177, not 0) and reports its
register values in its success output, merely flagging crc_ok as false. -/
theorem claim3_counterexample :
    read_one [1, 4, 2, 0, 5, 0, 0] = .okPrint false [5] ∧
      crc16_modbus [1, 4, 2, 0, 5] ≠ 0 ||| (0 <<< 8) := by
  constructor
  · decide
  · decide

/-- Claim C3 (amended): in `read_registers`, `read_block` and
`read_holding_chunk`, register values are delivered only when the embedded
trailing checksum (low byte then high byte) equals the checksum recomputed
over all frame bytes except the trailing two, and a mismatch on a frame
that reaches the check yields the distinct checksum-mismatch result
(`.badCrc`, `.crcMismatch`, or the undifferentiated `None`/`.err` of
dump_ongoing); `read_one` instead delivers values regardless of the
checksum (see the counterexample). -/
theorem read_holding_chunk_badCrc (stream : List Nat) (slave start qty : Nat)
    (haddr : stream.getD 0 0 = slave &&& 0xFF)
    (hfunc : stream.getD 1 0 &&& 0x80 = 0)
    (hlen : stream.getD 2 0 + 5 ≤ stream.length)
    (hm : ¬ holdChunkCrcOk stream) :
    read_holding_chunk stream slave start qty = .badCrc := by
  simp only [read_holding_chunk]
  rw [if_neg (show ¬ stream.length < 2 by omega), if_neg (not_ne_iff.mpr haddr),
    if_neg (not_ne_iff.mpr hfunc),
    if_neg (show ¬ ((stream.drop 2).take 1).length < 1 by
      simp only [List.length_take, List.length_drop]; omega),
    if_neg (show ¬ ((stream.drop 3).take (stream.getD 2 0 + 2)).length <
      stream.getD 2 0 + 2 by simp only [List.length_take, List.length_drop]; omega)]
  rw [if_pos (by simp only [holdChunkCrcOk] at hm; exact hm)]

/-- Evaluation of `read_holding_chunk` once the address, function-code,
length and checksum checks have all passed. -/
theorem read_holding_chunk_pastCrc (stream : List Nat) (slave start qty : Nat)
    (haddr : stream.getD 0 0 = slave &&& 0xFF)
    (hfunc : stream.getD 1 0 &&& 0x80 = 0)
    (hlen : stream.getD 2 0 + 5 ≤ stream.length)
    (hok : holdChunkCrcOk stream) :
    read_holding_chunk stream slave start qty =
      (if stream.getD 2 0 ≠ qty * 2 then .badCnt
       else
        match decodeRegs (((stream.drop 3).take (stream.getD 2 0 + 2)).take
            (((stream.drop 3).take (stream.getD 2 0 + 2)).length - 2)) with
        | some regs => .okRegs regs
        | none => .crash) := by
  simp only [read_holding_chunk]
  rw [if_neg (show ¬ stream.length < 2 by omega), if_neg (not_ne_iff.mpr haddr),
    if_neg (not_ne_iff.mpr hfunc),
    if_neg (show ¬ ((stream.drop 2).take 1).length < 1 by
      simp only [List.length_take, List.length_drop]; omega),
    if_neg (show ¬ ((stream.drop 3).take (stream.getD 2 0 + 2)).length <
      stream.getD 2 0 + 2 by simp only [List.length_take, List.length_drop]; omega)]
  rw [if_neg (show ¬ _ ≠ _ from
    not_ne_iff.mpr (by simp only [holdChunkCrcOk] at hok; exact hok))]

theorem read_registers_badCrc (stream : List Nat) (slave start qty : Nat)
    (hfunc : stream.getD 1 0 &&& 0x80 = 0)
    (hlen : stream.getD 2 0 + 5 ≤ stream.length)
    (hm : ¬ frame3CrcOk stream) :
    read_registers stream slave start qty = .err := by
  simp only [read_registers]
  rw [if_neg (show ¬ stream.length < 3 by omega), if_neg (not_ne_iff.mpr hfunc),
    if_neg (show ¬ ((stream.drop 3).take (stream.getD 2 0 + 2)).length ≠
      stream.getD 2 0 + 2 from not_ne_iff.mpr
        (by simp only [List.length_take, List.length_drop]; omega))]
  rw [if_pos (by simp only [frame3CrcOk] at hm; exact hm)]

/-- Evaluation of `read_registers` once the function-code, length and
checksum checks have all passed. -/
theorem read_registers_pastCrc (stream : List Nat) (slave start qty : Nat)
    (hfunc : stream.getD 1 0 &&& 0x80 = 0)
    (hlen : stream.getD 2 0 + 5 ≤ stream.length)
    (hok : frame3CrcOk stream) :
    read_registers stream slave start qty =
      (match decodePairs start
          ((stream.take 3 ++ (stream.drop 3).take (stream.getD 2 0 + 2)).drop 3 |>.take
            ((stream.take 3 ++ (stream.drop 3).take (stream.getD 2 0 + 2)).length - 5)) with
       | some r => .ok r
       | none => .crash) := by
  simp only [read_registers]
  rw [if_neg (show ¬ stream.length < 3 by omega), if_neg (not_ne_iff.mpr hfunc),
    if_neg (show ¬ ((stream.drop 3).take (stream.getD 2 0 + 2)).length ≠
      stream.getD 2 0 + 2 from not_ne_iff.mpr
        (by simp only [List.length_take, List.length_drop]; omega))]
  rw [if_neg (show ¬ _ ≠ _ from
    not_ne_iff.mpr (by simp only [frame3CrcOk] at hok; exact hok))]

theorem read_block_badCrc (stream : List Nat) (slave start qty : Nat)
    (hfunc : stream.getD 1 0 &&& 0x80 = 0)
    (hlen : stream.getD 2 0 + 5 ≤ stream.length)
    (hm : ¬ frame3CrcOk stream) :
    read_block stream slave start qty = .crcMismatch := by
  simp only [read_block]
  rw [if_neg (show ¬ stream.length < 3 by omega), if_neg (not_ne_iff.mpr hfunc),
    if_neg (show ¬ ((stream.drop 3).take (stream.getD 2 0 + 2)).length ≠
      stream.getD 2 0 + 2 from not_ne_iff.mpr
        (by simp only [List.length_take, List.length_drop]; omega))]
  rw [if_pos (by simp only [frame3CrcOk] at hm; exact hm)]

theorem claim3_crc_gate (stream : List Nat) (slave start qty : Nat)
    (haddr : stream.getD 0 0 = slave &&& 0xFF)
    (hfunc : stream.getD 1 0 &&& 0x80 = 0)
    (hlen : stream.getD 2 0 + 5 ≤ stream.length) :
    (¬ holdChunkCrcOk stream → read_holding_chunk stream slave start qty = .badCrc) ∧
    (∀ regs, read_holding_chunk stream slave start qty = .okRegs regs →
      holdChunkCrcOk stream) ∧
    (¬ frame3CrcOk stream → read_registers stream slave start qty = .err ∧
      read_block stream slave start qty = .crcMismatch) ∧
    (∀ r, read_registers stream slave start qty = .ok r → frame3CrcOk stream) ∧
    (∀ regs, read_block stream slave start qty = .okRegs regs → frame3CrcOk stream) := by
  refine ⟨read_holding_chunk_badCrc stream slave start qty haddr hfunc hlen, ?_, ?_, ?_, ?_⟩
  · intro regs h
    by_cases hc : holdChunkCrcOk stream
    · exact hc
    · rw [read_holding_chunk_badCrc stream slave start qty haddr hfunc hlen hc] at h
      exact HoldResult.noConfusion h
  · intro hm
    exact ⟨read_registers_badCrc stream slave start qty hfunc hlen hm,
      read_block_badCrc stream slave start qty hfunc hlen hm⟩
  · intro r h
    by_cases hc : frame3CrcOk stream
    · exact hc
    · rw [read_registers_badCrc stream slave start qty hfunc hlen hc] at h
      exact PyResult.noConfusion h
  · intro regs h
    by_cases hc : frame3CrcOk stream
    · exact hc
    · rw [read_block_badCrc stream slave start qty hfunc hlen hc] at h
      exact BlockResult.noConfusion h

theorem claim3_crc_gate_witness :
    (¬ holdChunkCrcOk [1, 3, 2, 0, 5, 0, 0] →
      read_holding_chunk [1, 3, 2, 0, 5, 0, 0] 1 0 1 = .badCrc) ∧
    (∀ regs, read_holding_chunk [1, 3, 2, 0, 5, 0, 0] 1 0 1 = .okRegs regs →
      holdChunkCrcOk [1, 3, 2, 0, 5, 0, 0]) ∧
    (¬ frame3CrcOk [1, 3, 2, 0, 5, 0, 0] →
      read_registers [1, 3, 2, 0, 5, 0, 0] 1 0 1 = .err ∧
      read_block [1, 3, 2, 0, 5, 0, 0] 1 0 1 = .crcMismatch) ∧
    (∀ r, read_registers [1, 3, 2, 0, 5, 0, 0] 1 0 1 = .ok r →
      frame3CrcOk [1, 3, 2, 0, 5, 0, 0]) ∧
    (∀ regs, read_block [1, 3, 2, 0, 5, 0, 0] 1 0 1 = .okRegs regs →
      frame3CrcOk [1, 3, 2, 0, 5, 0, 0]) :=
  claim3_crc_gate [1, 3, 2, 0, 5, 0, 0] 1 0 1 (by decide) (by decide) (by decide)

/-- Claim C4 counterexample: the claim says a normal response whose
byte-count field differs from 2 x requested-count yields the distinct
UnexpectedByteCount error and never a partially-decoded result; but
dump_ongoing's `read_registers`, asked for qty = 2 registers, accepts a
valid-checksum frame with byte-count 2 (instead of 4) and successfully
returns a single decoded register. -/
theorem claim4_counterexample :
    read_registers [1, 4, 2, 0, 7, 248, 242] 1 0 2 = .ok [(0, 7)] ∧
      (2 : Nat) ≠ 2 * 2 ∧ [(0, 7)].length ≠ 2 := by
  refine ⟨by decide, by decide, by decide⟩

/-- Claim C4 (amended): only `read_holding_chunk` validates the byte-count
field: on a checksum-valid normal response whose byte-count differs from
2 x requested-count it returns the distinct `.badCnt` error, and every
successful parse carries exactly qty register values.  `read_registers`
and `read_block` decode whatever even byte count arrives (see the
counterexample). -/
theorem claim4_bytecount_gate (stream : List Nat) (slave start qty : Nat)
    (haddr : stream.getD 0 0 = slave &&& 0xFF)
    (hfunc : stream.getD 1 0 &&& 0x80 = 0)
    (hlen : stream.getD 2 0 + 5 ≤ stream.length) :
    (holdChunkCrcOk stream → stream.getD 2 0 ≠ qty * 2 →
      read_holding_chunk stream slave start qty = .badCnt) ∧
    (∀ regs, read_holding_chunk stream slave start qty = .okRegs regs →
      regs.length = qty) := by
  constructor
  · intro hok hbc
    rw [read_holding_chunk_pastCrc stream slave start qty haddr hfunc hlen hok, if_pos hbc]
  · intro regs h
    by_cases hc : holdChunkCrcOk stream
    · rw [read_holding_chunk_pastCrc stream slave start qty haddr hfunc hlen hc] at h
      by_cases hbc : stream.getD 2 0 ≠ qty * 2
      · rw [if_pos hbc] at h
        exact HoldResult.noConfusion h
      · rw [if_neg hbc] at h
        rcases heq : decodeRegs (((stream.drop 3).take (stream.getD 2 0 + 2)).take
            (((stream.drop 3).take (stream.getD 2 0 + 2)).length - 2)) with _ | l
        · rw [heq] at h
          exact HoldResult.noConfusion h
        · rw [heq] at h
          have hlenD := decodeRegs_length heq
          have hD : (((stream.drop 3).take (stream.getD 2 0 + 2)).take
              (((stream.drop 3).take (stream.getD 2 0 + 2)).length - 2)).length =
              stream.getD 2 0 := by
            simp only [List.length_take, List.length_drop]
            omega
          rw [hD] at hlenD
          have hbc2 : stream.getD 2 0 = qty * 2 := not_ne_iff.mp hbc
          have hregs : l = regs := by
            injection h
          rw [← hregs]
          omega
    · rw [read_holding_chunk_badCrc stream slave start qty haddr hfunc hlen hc] at h
      exact HoldResult.noConfusion h

theorem claim4_bytecount_gate_witness :
    (holdChunkCrcOk [1, 3, 2, 0, 5, 0, 0] → (2 : Nat) ≠ 1 * 2 →
      read_holding_chunk [1, 3, 2, 0, 5, 0, 0] 1 0 1 = .badCnt) ∧
    (∀ regs, read_holding_chunk [1, 3, 2, 0, 5, 0, 0] 1 0 1 = .okRegs regs →
      regs.length = 1) :=
  claim4_bytecount_gate [1, 3, 2, 0, 5, 0, 0] 1 0 1 (by decide) (by decide) (by decide)

/-! ## Claim C5: round-trip through a synthetic well-formed response -/

theorem decodePairs_eq (count : Nat) : ∀ (start : Nat) (data : List Nat),
    data.length = 2 * count →
    decodePairs start data = some ((List.range count).map fun k =>
      (start + k, ((data.getD (2 * k) 0) <<< 8) ||| data.getD (2 * k + 1) 0)) := by
  induction count with
  | zero =>
    intro start data h
    have hnil : data = [] := List.eq_nil_of_length_eq_zero (by omega)
    subst hnil
    rfl
  | succ count ih =>
    intro start data h
    rcases data with _ | ⟨b0, data⟩
    · simp at h
    rcases data with _ | ⟨b1, rest⟩
    · simp at h
      omega
    have hr : rest.length = 2 * count := by
      simp only [List.length_cons] at h
      omega
    rw [decodePairs, ih (start + 1) rest hr]
    simp only [Option.map_some', Option.some.injEq]
    rw [List.range_succ_eq_map]
    simp only [List.map_cons, List.map_map]
    congr 1
    apply List.map_congr_left
    intro k hk
    simp only [Function.comp_apply, Nat.succ_eq_add_one]
    have e1 : 2 * (k + 1) = 2 * k + 1 + 1 := by omega
    rw [e1]
    simp only [List.getD_cons_succ]
    rw [show start + 1 + k = start + (k + 1) by omega]

/-- Reassembling a 16-bit value from its low byte and its high byte
shifted left by 8 (the embedded-checksum read `lo | (hi << 8)`). -/
theorem byte_pair_recombine (c : Nat) (h : c < 65536) :
    (c % 256) ||| ((c / 256) <<< 8) = c := by
  rw [Nat.shiftLeft_eq, Nat.lor_comm, Nat.mul_comm,
    ← Nat.mul_add_lt_is_or (show c % 256 < 2 ^ 8 by omega) (c / 256)]
  have e : (2 : Nat) ^ 8 = 256 := by norm_num
  rw [e]
  omega

/-- The synthetic well-formed response of claim C5: matching address and
function code, byte-count 2 x count, the data region, then the valid
checksum low byte first. -/
def synthResponse (slaveA func count : Nat) (data : List Nat) : List Nat :=
  ([slaveA, func, 2 * count] ++ data) ++
    [crc16_modbus ([slaveA, func, 2 * count] ++ data) % 256,
     crc16_modbus ([slaveA, func, 2 * count] ++ data) / 256]

/-- Claim C5: parsing a synthetic well-formed response to a request for
`count` registers starting at `start` returns Ok with a mapping whose
keys are exactly start..start+count-1 and whose value at start+k is the
big-endian 16-bit integer formed from data bytes 2k and 2k+1. -/
theorem claim5_roundtrip (slaveA func start count : Nat) (data : List Nat)
    (hsl : slaveA < 256) (hf : func = 3 ∨ func = 4)
    (hcnt : 2 * count < 256) (hlen : data.length = 2 * count)
    (hbytes : ∀ b ∈ data, b < 256) :
    read_registers (synthResponse slaveA func count data) slaveA start count =
      .ok ((List.range count).map fun k =>
        (start + k, ((data.getD (2 * k) 0) <<< 8) ||| data.getD (2 * k + 1) 0)) ∧
    ((List.range count).map fun k =>
        (start + k, ((data.getD (2 * k) 0) <<< 8) ||| data.getD (2 * k + 1) 0)).map
      Prod.fst = List.range' start count := by
  have hfb : func &&& 0x80 = 0 := by
    rcases hf with rfl | rfl <;> decide
  have hcons : synthResponse slaveA func count data =
      slaveA :: func :: (2 * count) ::
        (data ++ [crc16_modbus ([slaveA, func, 2 * count] ++ data) % 256,
          crc16_modbus ([slaveA, func, 2 * count] ++ data) / 256]) := by
    simp [synthResponse]
  have hg1 : (synthResponse slaveA func count data).getD 1 0 = func := by
    rw [hcons]
    rfl
  have hg2 : (synthResponse slaveA func count data).getD 2 0 = 2 * count := by
    rw [hcons]
    rfl
  have hslen : (synthResponse slaveA func count data).length = 2 * count + 5 := by
    rw [hcons]
    simp only [List.length_cons, List.length_append, List.length_cons, List.length_nil]
    omega
  have htake3 : (synthResponse slaveA func count data).take 3 = [slaveA, func, 2 * count] := by
    rw [hcons]
    rfl
  have hdrop3 : (synthResponse slaveA func count data).drop 3 =
      data ++ [crc16_modbus ([slaveA, func, 2 * count] ++ data) % 256,
        crc16_modbus ([slaveA, func, 2 * count] ++ data) / 256] := by
    rw [hcons]
    rfl
  have htail : ((synthResponse slaveA func count data).drop 3).take
      ((synthResponse slaveA func count data).getD 2 0 + 2) =
      data ++ [crc16_modbus ([slaveA, func, 2 * count] ++ data) % 256,
        crc16_modbus ([slaveA, func, 2 * count] ++ data) / 256] := by
    rw [hdrop3, hg2]
    apply List.take_of_length_le
    simp only [List.length_append, List.length_cons, List.length_nil]
    omega
  have hframe : (synthResponse slaveA func count data).take 3 ++
      ((synthResponse slaveA func count data).drop 3).take
        ((synthResponse slaveA func count data).getD 2 0 + 2) =
      ([slaveA, func, 2 * count] ++ data) ++
        [crc16_modbus ([slaveA, func, 2 * count] ++ data) % 256,
         crc16_modbus ([slaveA, func, 2 * count] ++ data) / 256] := by
    rw [htake3, htail]
    simp [List.append_assoc]
  have hbodylen : ([slaveA, func, 2 * count] ++ data).length = 2 * count + 3 := by
    simp only [List.length_append, List.length_cons, List.length_nil]
    omega
  have hframelen : (([slaveA, func, 2 * count] ++ data) ++
      [crc16_modbus ([slaveA, func, 2 * count] ++ data) % 256,
       crc16_modbus ([slaveA, func, 2 * count] ++ data) / 256]).length = 2 * count + 5 := by
    simp only [List.length_append, List.length_cons, List.length_nil] at hbodylen ⊢
    omega
  have hok : frame3CrcOk (synthResponse slaveA func count data) := by
    unfold frame3CrcOk
    rw [hframe, hframelen]
    rw [show 2 * count + 5 - 2 = 2 * count + 3 by omega,
      List.take_left' hbodylen,
      List.getD_append_right _ _ _ _ (by omega),
      List.getD_append_right _ _ _ _ (by omega),
      hbodylen]
    rw [show 2 * count + 3 - (2 * count + 3) = 0 by omega,
      show 2 * count + 5 - 1 - (2 * count + 3) = 1 by omega]
    rw [show ([crc16_modbus ([slaveA, func, 2 * count] ++ data) % 256,
      crc16_modbus ([slaveA, func, 2 * count] ++ data) / 256].getD 0 0) =
        crc16_modbus ([slaveA, func, 2 * count] ++ data) % 256 from rfl,
      show ([crc16_modbus ([slaveA, func, 2 * count] ++ data) % 256,
        crc16_modbus ([slaveA, func, 2 * count] ++ data) / 256].getD 1 0) =
        crc16_modbus ([slaveA, func, 2 * count] ++ data) / 256 from rfl]
    exact (byte_pair_recombine _ (crc16_modbus_lt _)).symm
  constructor
  · rw [read_registers_pastCrc _ slaveA start count (by rw [hg1]; exact hfb)
      (by rw [hg2, hslen]) hok]
    rw [hframe, hframelen]
    rw [show 2 * count + 5 - 5 = 2 * count by omega]
    have hdropf : (([slaveA, func, 2 * count] ++ data) ++
        [crc16_modbus ([slaveA, func, 2 * count] ++ data) % 256,
         crc16_modbus ([slaveA, func, 2 * count] ++ data) / 256]).drop 3 =
        data ++ [crc16_modbus ([slaveA, func, 2 * count] ++ data) % 256,
          crc16_modbus ([slaveA, func, 2 * count] ++ data) / 256] := by
      simp [List.drop_append_eq_append_drop]
    rw [hdropf, List.take_left' hlen, decodePairs_eq count start data hlen]
  · rw [List.map_map, List.range'_eq_map_range]
    apply List.map_congr_left
    intro k hk
    rfl

theorem claim5_roundtrip_witness :
    read_registers (synthResponse 1 4 2 [0, 7, 1, 44]) 1 5 2 =
      .ok ((List.range 2).map fun k =>
        (5 + k, (([0, 7, 1, 44].getD (2 * k) 0) <<< 8) ||| [0, 7, 1, 44].getD (2 * k + 1) 0)) ∧
    ((List.range 2).map fun k =>
        (5 + k, (([0, 7, 1, 44].getD (2 * k) 0) <<< 8) ||| [0, 7, 1, 44].getD (2 * k + 1) 0)).map
      Prod.fst = List.range' 5 2 :=
  claim5_roundtrip 1 4 5 2 [0, 7, 1, 44] (by norm_num) (Or.inr rfl) (by norm_num)
    (by decide) (by decide)

/-! ## Range readers (adaptive chunking loops)

modbus_dump_input.py main loop (lines 136-166) and
modbus_dump_holding.py dump_range (lines 122-174).

One transaction is abstracted as `tx addr qty`, returning `some regs` on
success (an OK `read_block` / error-free `read_holding_chunk`) and `none`
on any error.  The printed register lines are modelled by `pairs`
(`r = addr + i` value pairs, in print order), the stop-on-illegal exit by
`stopped`, and each issued transaction is logged in `attempts` as
(cursor, requested count, success).  The loop is driven by explicit fuel;
`none` means the fuel bound was hit (the source would still be looping);
every theorem below supplies enough fuel for the loop to finish. -/

structure RunOut where
  pairs : List (Nat × Nat)
  stopped : Bool
  attempts : List (Nat × Nat × Bool)
deriving DecidableEq, Repr

/-- modbus_dump_input.py main loop: `qty = min(chunk, remaining)`; on
success print and advance; on failure with qty > 1 set
`args.chunk = max(1, qty // 2)` and retry the same cursor; on a size-1
failure stop (when `--stop-on-illegal`) or skip one address. -/
def inputDump (tx : Nat → Nat → Option (List Nat)) (stopOnIllegal : Bool) :
    Nat → Nat → Nat → Nat → Option RunOut
  | 0, _, _, _ => none
  | fuel + 1, addr, remaining, chunk =>
    if remaining = 0 then some ⟨[], false, []⟩
    else
      match tx addr (min chunk remaining) with
      | some regs =>
        (inputDump tx stopOnIllegal fuel (addr + min chunk remaining)
            (remaining - min chunk remaining) chunk).map fun out =>
          ⟨(regs.enum.map fun p => (addr + p.1, p.2)) ++ out.pairs, out.stopped,
            (addr, min chunk remaining, true) :: out.attempts⟩
      | none =>
        if 1 < min chunk remaining then
          (inputDump tx stopOnIllegal fuel addr remaining
              (max 1 (min chunk remaining / 2))).map fun out =>
            ⟨out.pairs, out.stopped, (addr, min chunk remaining, false) :: out.attempts⟩
        else if stopOnIllegal then some ⟨[], true, [(addr, min chunk remaining, false)]⟩
        else
          (inputDump tx stopOnIllegal fuel (addr + 1) (remaining - 1) chunk).map fun out =>
            ⟨out.pairs, out.stopped, (addr, min chunk remaining, false) :: out.attempts⟩

/-- modbus_dump_holding.py dump_range: `qty = min(chunk, end - addr)`;
on failure with qty > 1 it sets `chunk = max(1, min(chunk, qty))`,
immediately retries the same cursor with `new_qty = max(1, qty // 2)`,
and if the retry also fails overwrites `chunk = max(1, new_qty)`; a
size-1 failure stops (when `--stop-on-illegal`) or skips one address. -/
def holdingDump (tx : Nat → Nat → Option (List Nat)) (stopOnIllegal : Bool) :
    Nat → Nat → Nat → Nat → Option RunOut
  | 0, _, _, _ => none
  | fuel + 1, addr, endAddr, chunk =>
    if endAddr ≤ addr then some ⟨[], false, []⟩
    else
      match tx addr (min chunk (endAddr - addr)) with
      | some regs =>
        (holdingDump tx stopOnIllegal fuel (addr + min chunk (endAddr - addr)) endAddr
            chunk).map fun out =>
          ⟨(regs.enum.map fun p => (addr + p.1, p.2)) ++ out.pairs, out.stopped,
            (addr, min chunk (endAddr - addr), true) :: out.attempts⟩
      | none =>
        if 1 < min chunk (endAddr - addr) then
          match tx addr (max 1 (min chunk (endAddr - addr) / 2)) with
          | some regs2 =>
            (holdingDump tx stopOnIllegal fuel
                (addr + max 1 (min chunk (endAddr - addr) / 2)) endAddr
                (max 1 (min chunk (min chunk (endAddr - addr))))).map fun out =>
              ⟨(regs2.enum.map fun p => (addr + p.1, p.2)) ++ out.pairs, out.stopped,
                (addr, min chunk (endAddr - addr), false) ::
                  (addr, max 1 (min chunk (endAddr - addr) / 2), true) :: out.attempts⟩
          | none =>
            (holdingDump tx stopOnIllegal fuel addr endAddr
                (max 1 (max 1 (min chunk (endAddr - addr) / 2)))).map fun out =>
              ⟨out.pairs, out.stopped,
                (addr, min chunk (endAddr - addr), false) ::
                  (addr, max 1 (min chunk (endAddr - addr) / 2), false) :: out.attempts⟩
        else if stopOnIllegal then some ⟨[], true, [(addr, min chunk (endAddr - addr), false)]⟩
        else
          (holdingDump tx stopOnIllegal fuel (addr + 1) endAddr chunk).map fun out =>
            ⟨out.pairs, out.stopped, (addr, min chunk (endAddr - addr), false) :: out.attempts⟩

/-- A transaction oracle with a single persistently faulty address `f`:
any block containing `f` fails; any other block succeeds and returns the
register values given by `v`. -/
def faultTx (f : Nat) (v : Nat → Nat) : Nat → Nat → Option (List Nat) :=
  fun a q => if a ≤ f ∧ f < a + q then none else some ((List.range q).map fun i => v (a + i))

/-- An oracle on which every transaction fails. -/
def allFailTx : Nat → Nat → Option (List Nat) :=
  fun _ _ => none

/-! ## Claim C6: bisection on failure -/

/-- Claim C6 counterexample: with every transaction failing, the holding
dumper started at chunk 8 on range [0, 8) issues the attempt trace
8, 4, 4, 2, 2, 1, 1, 1: the failure of the immediate retry at size 4
(index 1) is followed by another attempt of size 4 (index 2), not
max(1, 4/2) = 2 as the claim requires. -/
theorem claim6_counterexample :
    (holdingDump allFailTx true 10 0 8 8).map RunOut.attempts =
      some [(0, 8, false), (0, 4, false), (0, 4, false), (0, 2, false), (0, 2, false),
        (0, 1, false), (0, 1, false)] ∧
    ∀ s : Bool, ∀ rest : List (Nat × Nat × Bool),
      ¬ ((holdingDump allFailTx true 10 0 8 8).map RunOut.attempts =
        some ((0, 8, false) :: (0, 4, false) :: (0, max 1 (4 / 2), s) :: rest)) := by
  have h1 : (holdingDump allFailTx true 10 0 8 8).map RunOut.attempts =
      some [(0, 8, false), (0, 4, false), (0, 4, false), (0, 2, false), (0, 2, false),
        (0, 1, false), (0, 1, false)] := rfl
  refine ⟨h1, ?_⟩
  intro s rest h
  rw [h1] at h
  simp at h

/-- Every run of the input dumper from a state with registers remaining
begins with an attempt at the current cursor for `min chunk remaining`
registers. -/
theorem inputDump_attempts_head (tx : Nat → Nat → Option (List Nat)) (stop : Bool) :
    ∀ (fuel addr rem chunk : Nat) (out : RunOut),
      inputDump tx stop fuel addr rem chunk = some out → rem ≠ 0 →
      ∃ s rest, out.attempts = (addr, min chunk rem, s) :: rest
  | 0, _, _, _, _, h, _ => Option.noConfusion h
  | fuel + 1, addr, rem, chunk, out, h, hrem => by
    rw [inputDump, if_neg hrem] at h
    rcases htx : tx addr (min chunk rem) with _ | regs
    · rw [htx] at h
      by_cases hq : 1 < min chunk rem
      · rw [if_pos hq] at h
        rcases Option.map_eq_some'.mp h with ⟨out', _, rfl⟩
        exact ⟨false, out'.attempts, rfl⟩
      · rw [if_neg hq] at h
        by_cases hst : stop
        · rw [if_pos hst] at h
          injection h with h2
          subst h2
          exact ⟨false, [], rfl⟩
        · rw [if_neg hst] at h
          rcases Option.map_eq_some'.mp h with ⟨out', _, rfl⟩
          exact ⟨false, out'.attempts, rfl⟩
    · rw [htx] at h
      rcases Option.map_eq_some'.mp h with ⟨out', _, rfl⟩
      exact ⟨true, out'.attempts, rfl⟩

/-- Input dumper: in the whole attempt trace, every failed attempt for
q > 1 registers is immediately followed by an attempt at the same cursor
for max(1, q / 2) registers. -/
theorem inputDump_bisect (tx : Nat → Nat → Option (List Nat)) (stop : Bool) :
    ∀ (fuel addr rem chunk : Nat) (out : RunOut),
      inputDump tx stop fuel addr rem chunk = some out →
      ∀ (i a q : Nat), out.attempts.get? i = some (a, q, false) → 1 < q →
        ∃ s, out.attempts.get? (i + 1) = some (a, max 1 (q / 2), s)
  | 0, _, _, _, _, h => Option.noConfusion h
  | fuel + 1, addr, rem, chunk, out, h => by
    intro i a q hi hq
    by_cases hrem : rem = 0
    · rw [inputDump, if_pos hrem] at h
      injection h with h2
      subst h2
      simp at hi
    · rw [inputDump, if_neg hrem] at h
      rcases htx : tx addr (min chunk rem) with _ | regs
      · rw [htx] at h
        by_cases hq1 : 1 < min chunk rem
        · rw [if_pos hq1] at h
          rcases Option.map_eq_some'.mp h with ⟨out', hrec, rfl⟩
          cases i with
          | zero =>
            simp only [List.get?_cons_zero, Option.some.injEq, Prod.mk.injEq] at hi
            obtain ⟨rfl, rfl, -⟩ := hi
            have hmin : min chunk rem ≤ rem := Nat.min_le_right _ _
            have hdiv : min chunk rem / 2 < min chunk rem :=
              Nat.div_lt_self (by omega) (by omega)
            have hns : min (max 1 (min chunk rem / 2)) rem = max 1 (min chunk rem / 2) := by
              omega
            rcases inputDump_attempts_head tx stop fuel addr rem
              (max 1 (min chunk rem / 2)) out' hrec hrem with ⟨s, rest, hh⟩
            refine ⟨s, ?_⟩
            simp only [List.get?_cons_succ, List.get?_cons_zero, hh, hns]
          | succ i =>
            simp only [List.get?_cons_succ] at hi ⊢
            exact inputDump_bisect tx stop fuel addr rem _ out' hrec i a q hi hq
        · rw [if_neg hq1] at h
          by_cases hst : stop
          · rw [if_pos hst] at h
            injection h with h2
            subst h2
            cases i with
            | zero =>
              simp only [List.get?_cons_zero, Option.some.injEq, Prod.mk.injEq] at hi
              omega
            | succ i =>
              simp at hi
          · rw [if_neg hst] at h
            rcases Option.map_eq_some'.mp h with ⟨out', hrec, rfl⟩
            cases i with
            | zero =>
              simp only [List.get?_cons_zero, Option.some.injEq, Prod.mk.injEq] at hi
              omega
            | succ i =>
              simp only [List.get?_cons_succ] at hi ⊢
              exact inputDump_bisect tx stop fuel (addr + 1) (rem - 1) chunk out' hrec i a q hi hq
      · rw [htx] at h
        rcases Option.map_eq_some'.mp h with ⟨out', hrec, rfl⟩
        cases i with
        | zero =>
          simp only [List.get?_cons_zero, Option.some.injEq, Prod.mk.injEq] at hi
          exact absurd hi.2.2 (by simp)
        | succ i =>
          simp only [List.get?_cons_succ] at hi ⊢
          exact inputDump_bisect tx stop fuel (addr + min chunk rem) (rem - min chunk rem)
            chunk out' hrec i a q hi hq

/-- Holding dumper: a failed first attempt for q > 1 registers is
immediately followed by a retry at the same cursor for max(1, q / 2)
registers. -/
theorem holdingDump_retry_halves (tx : Nat → Nat → Option (List Nat)) (stop : Bool)
    (fuel addr endAddr chunk : Nat) (out : RunOut)
    (h : holdingDump tx stop fuel addr endAddr chunk = some out)
    (hlt : addr < endAddr)
    (hfail : tx addr (min chunk (endAddr - addr)) = none)
    (hq : 1 < min chunk (endAddr - addr)) :
    ∃ s rest, out.attempts = (addr, min chunk (endAddr - addr), false) ::
      (addr, max 1 (min chunk (endAddr - addr) / 2), s) :: rest := by
  rcases fuel with _ | fuel
  · exact Option.noConfusion h
  · rw [holdingDump, if_neg (by omega), hfail, if_pos hq] at h
    rcases htx2 : tx addr (max 1 (min chunk (endAddr - addr) / 2)) with _ | regs2
    · rw [htx2] at h
      rcases Option.map_eq_some'.mp h with ⟨out', _, rfl⟩
      exact ⟨false, out'.attempts, rfl⟩
    · rw [htx2] at h
      rcases Option.map_eq_some'.mp h with ⟨out', _, rfl⟩
      exact ⟨true, out'.attempts, rfl⟩

/-- Claim C6 (amended): in the input dumper the claim holds as stated:
whenever a transaction requesting q > 1 registers at cursor a fails, the
next transaction of the run is issued at the same cursor a with register
count max(1, q / 2), which stays within [1, q].  In the holding dumper
this holds for the immediate retry that follows a failed first attempt,
but when that retry also fails the halved size is repeated once before
being halved again (see the counterexample). -/
theorem claim6_bisection (tx : Nat → Nat → Option (List Nat)) (stop : Bool)
    (fuel addr rem chunk endAddr : Nat) (out outH : RunOut)
    (h : inputDump tx stop fuel addr rem chunk = some out)
    (hH : holdingDump tx stop fuel addr endAddr chunk = some outH)
    (hlt : addr < endAddr)
    (hfail : tx addr (min chunk (endAddr - addr)) = none)
    (hq : 1 < min chunk (endAddr - addr)) :
    (∀ (i a q : Nat), out.attempts.get? i = some (a, q, false) → 1 < q →
      (∃ s, out.attempts.get? (i + 1) = some (a, max 1 (q / 2), s)) ∧
        1 ≤ max 1 (q / 2) ∧ max 1 (q / 2) ≤ q) ∧
    (∃ s rest, outH.attempts = (addr, min chunk (endAddr - addr), false) ::
      (addr, max 1 (min chunk (endAddr - addr) / 2), s) :: rest) := by
  constructor
  · intro i a q hi hq1
    refine ⟨inputDump_bisect tx stop fuel addr rem chunk out h i a q hi hq1, ?_, ?_⟩
    · omega
    · have : q / 2 < q := Nat.div_lt_self (by omega) (by omega)
      omega
  · exact holdingDump_retry_halves tx stop fuel addr endAddr chunk outH hH hlt hfail hq

theorem claim6_bisection_witness :
    (∀ (i a q : Nat),
      (RunOut.mk [] false [(0, 4, false), (0, 2, false), (0, 1, false), (1, 1, false),
        (2, 1, false), (3, 1, false)]).attempts.get? i = some (a, q, false) → 1 < q →
      (∃ s, (RunOut.mk [] false [(0, 4, false), (0, 2, false), (0, 1, false), (1, 1, false),
        (2, 1, false), (3, 1, false)]).attempts.get? (i + 1) = some (a, max 1 (q / 2), s)) ∧
        1 ≤ max 1 (q / 2) ∧ max 1 (q / 2) ≤ q) ∧
    (∃ s rest,
      (RunOut.mk [] false [(0, 4, false), (0, 2, false), (0, 2, false), (0, 1, false),
        (0, 1, false), (1, 1, false), (2, 1, false), (3, 1, false)]).attempts =
        (0, min 4 (4 - 0), false) :: (0, max 1 (min 4 (4 - 0) / 2), s) :: rest) :=
  claim6_bisection allFailTx false 10 0 4 4 4
    (RunOut.mk [] false [(0, 4, false), (0, 2, false), (0, 1, false), (1, 1, false),
      (2, 1, false), (3, 1, false)])
    (RunOut.mk [] false [(0, 4, false), (0, 2, false), (0, 2, false), (0, 1, false),
      (0, 1, false), (1, 1, false), (2, 1, false), (3, 1, false)])
    (by rfl) (by rfl) (by norm_num) (by rfl) (by norm_num)

/-! ## Claim C8: chunk size is never reset after recovery -/

/-- Oracle failing exactly on the block (0, 8). -/
def failAt08Tx : Nat → Nat → Option (List Nat) :=
  fun a q => if a = 0 ∧ q = 8 then none else some (List.replicate q 0)

/-- Oracle failing exactly on the blocks (0, 8) and (0, 4). -/
def failAt084Tx : Nat → Nat → Option (List Nat) :=
  fun a q => if a = 0 ∧ (q = 8 ∨ q = 4) then none else some (List.replicate q 0)

/-- Claim C8: the claim says the chunk size is reset back toward
max_chunk after every successful transaction, but both range readers keep
the bisected chunk size forever.  Input dumper, max chunk 8 on 16
registers, one failure at (0, 8): after the successful recovery at
(0, 4), every following transaction still requests 4 registers, never 8.
Holding dumper, failures at (0, 8) and (0, 4): after the successful
retry at (0, 2), every following transaction still requests at most 4.
This contradicts modbus_dump_holding.py's own comment "do not permanently
force chunk down forever". -/
theorem claim8_no_reset :
    (inputDump failAt08Tx false 12 0 16 8).map RunOut.attempts =
      some [(0, 8, false), (0, 4, true), (4, 4, true), (8, 4, true), (12, 4, true)] ∧
    (holdingDump failAt084Tx false 20 0 16 8).map RunOut.attempts =
      some [(0, 8, false), (0, 4, false), (0, 4, false), (0, 2, true), (2, 4, true),
        (6, 4, true), (10, 4, true), (14, 2, true)] := by
  constructor
  · rfl
  · rfl

/-! ## Claim C7: Stop and SkipOne policies on a persistent single fault -/

/-- Printing the enumerated register values of a successful block is the
address-value pairing over the block's addresses. -/
theorem enum_map_pairs (a q : Nat) (v : Nat → Nat) :
    (((List.range q).map fun i => v (a + i)).enum.map fun p => (a + p.1, p.2)) =
      (List.range' a q).map fun x => (x, v x) := by
  have hlen : ((List.range q).map fun i => v (a + i)).length = q := by simp
  show (((List.range q).map fun i => v (a + i)).enumFrom 0).map (Prod.map (a + ·) id) = _
  rw [List.enumFrom_eq_zip_range', hlen, ← List.zip_map_left, List.map_add_range',
    Nat.add_zero, List.range'_eq_map_range, List.zip_map', List.map_map]
  rfl

theorem range'_filter_ne (a q f : Nat) (h : ¬ (a ≤ f ∧ f < a + q)) :
    (List.range' a q).filter (fun x => x != f) = List.range' a q := by
  apply List.filter_eq_self.mpr
  intro x hx
  rw [List.mem_range'] at hx
  rcases hx with ⟨i, hi, rfl⟩
  simp only [bne_iff_ne, ne_eq]
  omega

theorem range'_split (a q rem : Nat) (h : q ≤ rem) :
    List.range' a rem = List.range' a q ++ List.range' (a + q) (rem - q) := by
  rw [List.range'_append_1]
  congr 1
  omega

theorem faultTx_none {f a q : Nat} (v : Nat → Nat) (h : a ≤ f ∧ f < a + q) :
    faultTx f v a q = none := by
  simp only [faultTx]
  rw [if_pos h]

theorem faultTx_some {f a q : Nat} (v : Nat → Nat) (h : ¬ (a ≤ f ∧ f < a + q)) :
    faultTx f v a q = some ((List.range q).map fun i => v (a + i)) := by
  simp only [faultTx]
  rw [if_neg h]

/-- SkipOne policy, input dumper, single faulty address: the run succeeds
and prints exactly the addresses of the range that differ from `f`. -/
theorem inputDump_skip_fault (f : Nat) (v : Nat → Nat) :
    ∀ (fuel a rem c : Nat), 1 ≤ c → rem + c < fuel →
      ∃ att, inputDump (faultTx f v) false fuel a rem c =
        some ⟨((List.range' a rem).filter (fun x => x != f)).map fun x => (x, v x),
          false, att⟩
  | 0, a, rem, c, hc, hfuel => absurd hfuel (by omega)
  | fuel + 1, a, rem, c, hc, hfuel => by
    by_cases hrem : rem = 0
    · subst hrem
      exact ⟨[], by rw [inputDump, if_pos rfl]; rfl⟩
    · by_cases hin : a ≤ f ∧ f < a + min c rem
      · by_cases hq : 1 < min c rem
        · have hdiv : min c rem / 2 < min c rem := Nat.div_lt_self (by omega) (by omega)
          rcases inputDump_skip_fault f v fuel a rem (max 1 (min c rem / 2))
            (by omega) (by omega) with ⟨att, hrec⟩
          refine ⟨(a, min c rem, false) :: att, ?_⟩
          rw [inputDump, if_neg hrem, faultTx_none v hin, if_pos hq, hrec]
          rfl
        · have hfa : f = a := by omega
          obtain ⟨rem1, rfl⟩ : ∃ rem1, rem = rem1 + 1 := ⟨rem - 1, by omega⟩
          rcases inputDump_skip_fault f v fuel (a + 1) rem1 c hc (by omega)
            with ⟨att, hrec⟩
          refine ⟨(a, min c (rem1 + 1), false) :: att, ?_⟩
          rw [inputDump, if_neg hrem, faultTx_none v hin, if_neg hq, if_neg (by simp)]
          rw [show rem1 + 1 - 1 = rem1 by omega, hrec]
          simp only [Option.map_some', Option.some.injEq, RunOut.mk.injEq]
          refine ⟨?_, trivial, trivial⟩
          rw [List.range'_succ, List.filter_cons]
          rw [if_neg (by simp [hfa])]
      · rcases inputDump_skip_fault f v fuel (a + min c rem) (rem - min c rem) c hc
          (by omega) with ⟨att, hrec⟩
        refine ⟨(a, min c rem, true) :: att, ?_⟩
        rw [inputDump, if_neg hrem, faultTx_some v hin, hrec]
        simp only [Option.map_some', Option.some.injEq, RunOut.mk.injEq]
        refine ⟨?_, trivial, trivial⟩
        rw [range'_split a (min c rem) rem (by omega), List.filter_append,
          range'_filter_ne a (min c rem) f hin, List.map_append, enum_map_pairs]

/-- Stop policy, input dumper, single faulty address inside the range:
the run returns exactly the addresses before `f`, reports the stop, and
never issues a transaction at a cursor beyond `f`. -/
theorem inputDump_stop_fault (f : Nat) (v : Nat → Nat) :
    ∀ (fuel a rem c : Nat), 1 ≤ c → rem + c < fuel → a ≤ f → f < a + rem →
      ∃ att, inputDump (faultTx f v) true fuel a rem c =
        some ⟨(List.range' a (f - a)).map (fun x => (x, v x)), true, att⟩ ∧
        ∀ t ∈ att, t.1 ≤ f
  | 0, a, rem, c, hc, hfuel, hf1, hf2 => absurd hfuel (by omega)
  | fuel + 1, a, rem, c, hc, hfuel, hf1, hf2 => by
    have hrem : rem ≠ 0 := by omega
    by_cases hin : a ≤ f ∧ f < a + min c rem
    · by_cases hq : 1 < min c rem
      · have hdiv : min c rem / 2 < min c rem := Nat.div_lt_self (by omega) (by omega)
        rcases inputDump_stop_fault f v fuel a rem (max 1 (min c rem / 2))
          (by omega) (by omega) hf1 hf2 with ⟨att, hrec, hatt⟩
        refine ⟨(a, min c rem, false) :: att, ?_, ?_⟩
        · rw [inputDump, if_neg hrem, faultTx_none v hin, if_pos hq, hrec]
          rfl
        · intro t ht
          rcases List.mem_cons.mp ht with rfl | ht
          · exact hf1
          · exact hatt t ht
      · have hfa : f = a := by omega
        refine ⟨[(a, min c rem, false)], ?_, ?_⟩
        · rw [inputDump, if_neg hrem, faultTx_none v hin, if_neg hq, if_pos rfl]
          rw [show f - a = 0 by omega]
          rfl
        · intro t ht
          rcases List.mem_cons.mp ht with rfl | ht
          · exact hf1
          · simp at ht
    · have hge : a + min c rem ≤ f := by omega
      rcases inputDump_stop_fault f v fuel (a + min c rem) (rem - min c rem) c hc
        (by omega) (by omega) (by omega) with ⟨att, hrec, hatt⟩
      refine ⟨(a, min c rem, true) :: att, ?_, ?_⟩
      · rw [inputDump, if_neg hrem, faultTx_some v hin, hrec]
        simp only [Option.map_some', Option.some.injEq, RunOut.mk.injEq]
        refine ⟨?_, trivial, trivial⟩
        rw [range'_split a (min c rem) (f - a) (by omega), List.map_append, enum_map_pairs]
        rw [show f - a - min c rem = f - (a + min c rem) by omega]
      · intro t ht
        rcases List.mem_cons.mp ht with rfl | ht
        · exact hf1
        · exact hatt t ht

/-- SkipOne policy, holding dumper, single faulty address: the run
succeeds and prints exactly the addresses of the range that differ from
`f`. -/
theorem holdingDump_skip_fault (f : Nat) (v : Nat → Nat) :
    ∀ (fuel a endA c : Nat), 1 ≤ c → (endA - a) + c < fuel →
      ∃ att, holdingDump (faultTx f v) false fuel a endA c =
        some ⟨((List.range' a (endA - a)).filter (fun x => x != f)).map fun x => (x, v x),
          false, att⟩
  | 0, a, endA, c, hc, hfuel => absurd hfuel (by omega)
  | fuel + 1, a, endA, c, hc, hfuel => by
    by_cases hend : endA ≤ a
    · refine ⟨[], ?_⟩
      rw [holdingDump, if_pos hend, show endA - a = 0 by omega]
      rfl
    · have hq0 : 1 ≤ min c (endA - a) := by omega
      by_cases hin : a ≤ f ∧ f < a + min c (endA - a)
      · by_cases hq : 1 < min c (endA - a)
        · have hdiv : min c (endA - a) / 2 < min c (endA - a) :=
            Nat.div_lt_self (by omega) (by omega)
          by_cases hin2 : a ≤ f ∧ f < a + max 1 (min c (endA - a) / 2)
          · rcases holdingDump_skip_fault f v fuel a endA
              (max 1 (max 1 (min c (endA - a) / 2))) (by omega) (by omega)
              with ⟨att, hrec⟩
            refine ⟨(a, min c (endA - a), false) ::
              (a, max 1 (min c (endA - a) / 2), false) :: att, ?_⟩
            rw [holdingDump, if_neg hend, faultTx_none v hin, if_pos hq,
              faultTx_none v hin2, hrec]
            rfl
          · have hge : a + max 1 (min c (endA - a) / 2) ≤ f := by omega
            rcases holdingDump_skip_fault f v fuel
              (a + max 1 (min c (endA - a) / 2)) endA
              (max 1 (min c (min c (endA - a)))) (by omega) (by omega)
              with ⟨att, hrec⟩
            refine ⟨(a, min c (endA - a), false) ::
              (a, max 1 (min c (endA - a) / 2), true) :: att, ?_⟩
            rw [holdingDump, if_neg hend, faultTx_none v hin, if_pos hq,
              faultTx_some v hin2, hrec]
            simp only [Option.map_some', Option.some.injEq, RunOut.mk.injEq]
            refine ⟨?_, trivial, trivial⟩
            rw [range'_split a (max 1 (min c (endA - a) / 2)) (endA - a) (by omega),
              List.filter_append, range'_filter_ne a _ f hin2, List.map_append,
              enum_map_pairs]
            rw [show endA - a - max 1 (min c (endA - a) / 2) =
              endA - (a + max 1 (min c (endA - a) / 2)) by omega]
        · have hfa : f = a := by omega
          rcases holdingDump_skip_fault f v fuel (a + 1) endA c hc (by omega)
            with ⟨att, hrec⟩
          refine ⟨(a, min c (endA - a), false) :: att, ?_⟩
          rw [holdingDump, if_neg hend, faultTx_none v hin, if_neg hq, if_neg (by simp),
            hrec]
          simp only [Option.map_some', Option.some.injEq, RunOut.mk.injEq]
          refine ⟨?_, trivial, trivial⟩
          rw [show endA - a = (endA - (a + 1)) + 1 by omega, List.range'_succ,
            List.filter_cons, if_neg (by simp [hfa])]
      · have hge : ¬ (a ≤ f ∧ f < a + min c (endA - a)) := hin
        rcases holdingDump_skip_fault f v fuel (a + min c (endA - a)) endA c hc
          (by omega) with ⟨att, hrec⟩
        refine ⟨(a, min c (endA - a), true) :: att, ?_⟩
        rw [holdingDump, if_neg hend, faultTx_some v hin, hrec]
        simp only [Option.map_some', Option.some.injEq, RunOut.mk.injEq]
        refine ⟨?_, trivial, trivial⟩
        rw [range'_split a (min c (endA - a)) (endA - a) (by omega), List.filter_append,
          range'_filter_ne a _ f hin, List.map_append, enum_map_pairs]
        rw [show endA - a - min c (endA - a) = endA - (a + min c (endA - a)) by omega]

/-- Stop policy, holding dumper, single faulty address inside the range:
the run returns exactly the addresses before `f`, reports the stop, and
never issues a transaction at a cursor beyond `f`. -/
theorem holdingDump_stop_fault (f : Nat) (v : Nat → Nat) :
    ∀ (fuel a endA c : Nat), 1 ≤ c → (endA - a) + c < fuel → a ≤ f → f < endA →
      ∃ att, holdingDump (faultTx f v) true fuel a endA c =
        some ⟨(List.range' a (f - a)).map (fun x => (x, v x)), true, att⟩ ∧
        ∀ t ∈ att, t.1 ≤ f
  | 0, a, endA, c, hc, hfuel, hf1, hf2 => absurd hfuel (by omega)
  | fuel + 1, a, endA, c, hc, hfuel, hf1, hf2 => by
    have hend : ¬ endA ≤ a := by omega
    have hq0 : 1 ≤ min c (endA - a) := by omega
    by_cases hin : a ≤ f ∧ f < a + min c (endA - a)
    · by_cases hq : 1 < min c (endA - a)
      · have hdiv : min c (endA - a) / 2 < min c (endA - a) :=
          Nat.div_lt_self (by omega) (by omega)
        by_cases hin2 : a ≤ f ∧ f < a + max 1 (min c (endA - a) / 2)
        · rcases holdingDump_stop_fault f v fuel a endA
            (max 1 (max 1 (min c (endA - a) / 2))) (by omega) (by omega) hf1 hf2
            with ⟨att, hrec, hatt⟩
          refine ⟨(a, min c (endA - a), false) ::
            (a, max 1 (min c (endA - a) / 2), false) :: att, ?_, ?_⟩
          · rw [holdingDump, if_neg hend, faultTx_none v hin, if_pos hq,
              faultTx_none v hin2, hrec]
            rfl
          · intro t ht
            rcases List.mem_cons.mp ht with rfl | ht
            · exact hf1
            rcases List.mem_cons.mp ht with rfl | ht
            · exact hf1
            · exact hatt t ht
        · have hge : a + max 1 (min c (endA - a) / 2) ≤ f := by omega
          rcases holdingDump_stop_fault f v fuel
            (a + max 1 (min c (endA - a) / 2)) endA
            (max 1 (min c (min c (endA - a)))) (by omega) (by omega) (by omega) hf2
            with ⟨att, hrec, hatt⟩
          refine ⟨(a, min c (endA - a), false) ::
            (a, max 1 (min c (endA - a) / 2), true) :: att, ?_, ?_⟩
          · rw [holdingDump, if_neg hend, faultTx_none v hin, if_pos hq,
              faultTx_some v hin2, hrec]
            simp only [Option.map_some', Option.some.injEq, RunOut.mk.injEq]
            refine ⟨?_, trivial, trivial⟩
            rw [range'_split a (max 1 (min c (endA - a) / 2)) (f - a) (by omega),
              List.map_append, enum_map_pairs]
            rw [show f - a - max 1 (min c (endA - a) / 2) =
              f - (a + max 1 (min c (endA - a) / 2)) by omega]
          · intro t ht
            rcases List.mem_cons.mp ht with rfl | ht
            · exact hf1
            rcases List.mem_cons.mp ht with rfl | ht
            · exact hf1
            · exact hatt t ht
      · have hfa : f = a := by omega
        refine ⟨[(a, min c (endA - a), false)], ?_, ?_⟩
        · rw [holdingDump, if_neg hend, faultTx_none v hin, if_neg hq, if_pos rfl]
          rw [show f - a = 0 by omega]
          rfl
        · intro t ht
          rcases List.mem_cons.mp ht with rfl | ht
          · exact hf1
          · simp at ht
    · have hge : a + min c (endA - a) ≤ f := by omega
      rcases holdingDump_stop_fault f v fuel (a + min c (endA - a)) endA c hc
        (by omega) (by omega) hf2 with ⟨att, hrec, hatt⟩
      refine ⟨(a, min c (endA - a), true) :: att, ?_, ?_⟩
      · rw [holdingDump, if_neg hend, faultTx_some v hin, hrec]
        simp only [Option.map_some', Option.some.injEq, RunOut.mk.injEq]
        refine ⟨?_, trivial, trivial⟩
        rw [range'_split a (min c (endA - a)) (f - a) (by omega), List.map_append,
          enum_map_pairs]
        rw [show f - a - min c (endA - a) = f - (a + min c (endA - a)) by omega]
      · intro t ht
        rcases List.mem_cons.mp ht with rfl | ht
        · exact hf1
        · exact hatt t ht

/-- Claim C7: when the single address `f` inside the requested range
fails persistently (every transaction whose block contains `f` fails),
then under the Stop policy both range readers terminate with exactly the
addresses before `f`, report the failure stop, and never issue a
transaction at a cursor past `f`; under the SkipOne policy both continue
and produce a mapping containing exactly every address of the range
except `f`. -/
theorem claim7_policies (f start count chunk fuel : Nat) (v : Nat → Nat)
    (hc : 1 ≤ chunk) (hf1 : start ≤ f) (hf2 : f < start + count)
    (hfuel : count + chunk < fuel) :
    (∃ att, inputDump (faultTx f v) true fuel start count chunk =
        some ⟨(List.range' start (f - start)).map (fun x => (x, v x)), true, att⟩ ∧
        ∀ t ∈ att, t.1 ≤ f) ∧
    (∃ att, inputDump (faultTx f v) false fuel start count chunk =
        some ⟨((List.range' start count).filter (fun x => x != f)).map fun x => (x, v x),
          false, att⟩) ∧
    (∃ att, holdingDump (faultTx f v) true fuel start (start + count) chunk =
        some ⟨(List.range' start (f - start)).map (fun x => (x, v x)), true, att⟩ ∧
        ∀ t ∈ att, t.1 ≤ f) ∧
    (∃ att, holdingDump (faultTx f v) false fuel start (start + count) chunk =
        some ⟨((List.range' start count).filter (fun x => x != f)).map fun x => (x, v x),
          false, att⟩) := by
  refine ⟨inputDump_stop_fault f v fuel start count chunk hc hfuel hf1 hf2,
    inputDump_skip_fault f v fuel start count chunk hc hfuel, ?_, ?_⟩
  · exact holdingDump_stop_fault f v fuel start (start + count) chunk hc
      (by omega) hf1 (by omega)
  · have h := holdingDump_skip_fault f v fuel start (start + count) chunk hc (by omega)
    rw [show start + count - start = count by omega] at h
    exact h

theorem claim7_policies_witness :
    (∃ att, inputDump (faultTx 105 (fun x => 2 * x)) true 20 101 8 8 =
        some ⟨(List.range' 101 (105 - 101)).map (fun x => (x, 2 * x)), true, att⟩ ∧
        ∀ t ∈ att, t.1 ≤ 105) ∧
    (∃ att, inputDump (faultTx 105 (fun x => 2 * x)) false 20 101 8 8 =
        some ⟨((List.range' 101 8).filter (fun x => x != 105)).map fun x => (x, 2 * x),
          false, att⟩) ∧
    (∃ att, holdingDump (faultTx 105 (fun x => 2 * x)) true 20 101 (101 + 8) 8 =
        some ⟨(List.range' 101 (105 - 101)).map (fun x => (x, 2 * x)), true, att⟩ ∧
        ∀ t ∈ att, t.1 ≤ 105) ∧
    (∃ att, holdingDump (faultTx 105 (fun x => 2 * x)) false 20 101 (101 + 8) 8 =
        some ⟨((List.range' 101 8).filter (fun x => x != 105)).map fun x => (x, 2 * x),
          false, att⟩) :=
  claim7_policies 105 101 8 8 20 (fun x => 2 * x) (by norm_num) (by norm_num)
    (by norm_num) (by norm_num)

end Lux485
